import Mathlib

/-!
Verification of `daily_nhl_team_stats.py` against its specification.

The script is embedded shallowly: JSON values carry Python truthiness,
HTTP calls are represented by their outcome (status + parsed body, or a
network-level failure), the database is a list of rows, and the single
transaction of a run is a pair of committed/pending tables.
-/

deriving instance DecidableEq for Except

namespace NhlDaily

/-- A flat JSON value as produced by `r.json()` and consumed with `.get`.
Python's `None` (absent key or JSON `null`) is `JVal.null`. -/
inductive JVal where
  | null : JVal
  | num : ℚ → JVal
  | str : String → JVal
  | bool : Bool → JVal
deriving DecidableEq

/-- A JSON object: association list of field names to values. -/
def Obj : Type := List (String × JVal)

instance : DecidableEq Obj := by
  unfold Obj
  infer_instance

/-- Python `d.get(k)`: the first value stored under `k`, else `None`. -/
def Obj.get (o : Obj) (k : String) : JVal :=
  match o.find? (fun kv => kv.1 == k) with
  | some kv => kv.2
  | none => JVal.null

/-- Whether the key occurs in the object at all. -/
def Obj.hasKey (o : Obj) (k : String) : Bool :=
  o.any (fun kv => kv.1 == k)

/-- Python truthiness of the values that appear in the payloads:
`None` is falsy, `0` is falsy, the empty string is falsy, `False` is falsy. -/
def pyTruthy : JVal → Bool
  | JVal.null => false
  | JVal.num q => if q = 0 then false else true
  | JVal.str s => if s = "" then false else true
  | JVal.bool b => b

/-- Python `a or b`: `a` when truthy, else `b`. -/
def pyOr (a b : JVal) : JVal :=
  if pyTruthy a then a else b

/-- Models `unicodedata.combining(c) != 0` for the characters this model
decomposes into: the Combining Diacritical Marks block U+0300 - U+036F. -/
def isCombining (c : Char) : Bool :=
  decide (768 ≤ c.toNat ∧ c.toNat ≤ 879)

/-- Models `unicodedata.normalize("NFKD", ...)` one character at a time:
ASCII is unchanged; the precomposed Latin letters in the table decompose
into a base letter followed by a combining mark; everything else is kept. -/
def nfkd (c : Char) : List Char :=
  if c.toNat < 128 then [c]
  else match c with
    | 'á' => ['a', Char.ofNat 769]
    | 'à' => ['a', Char.ofNat 768]
    | 'â' => ['a', Char.ofNat 770]
    | 'ä' => ['a', Char.ofNat 776]
    | 'ã' => ['a', Char.ofNat 771]
    | 'å' => ['a', Char.ofNat 778]
    | 'ç' => ['c', Char.ofNat 807]
    | 'é' => ['e', Char.ofNat 769]
    | 'è' => ['e', Char.ofNat 768]
    | 'ê' => ['e', Char.ofNat 770]
    | 'ë' => ['e', Char.ofNat 776]
    | 'í' => ['i', Char.ofNat 769]
    | 'î' => ['i', Char.ofNat 770]
    | 'ï' => ['i', Char.ofNat 776]
    | 'ñ' => ['n', Char.ofNat 771]
    | 'ó' => ['o', Char.ofNat 769]
    | 'ô' => ['o', Char.ofNat 770]
    | 'ö' => ['o', Char.ofNat 776]
    | 'ú' => ['u', Char.ofNat 769]
    | 'û' => ['u', Char.ofNat 770]
    | 'ü' => ['u', Char.ofNat 776]
    | 'Á' => ['A', Char.ofNat 769]
    | 'À' => ['A', Char.ofNat 768]
    | 'Â' => ['A', Char.ofNat 770]
    | 'Ä' => ['A', Char.ofNat 776]
    | 'Ç' => ['C', Char.ofNat 807]
    | 'É' => ['E', Char.ofNat 769]
    | 'È' => ['E', Char.ofNat 768]
    | 'Ê' => ['E', Char.ofNat 770]
    | 'Ë' => ['E', Char.ofNat 776]
    | 'Í' => ['I', Char.ofNat 769]
    | 'Î' => ['I', Char.ofNat 770]
    | 'Ñ' => ['N', Char.ofNat 771]
    | 'Ó' => ['O', Char.ofNat 769]
    | 'Ô' => ['O', Char.ofNat 770]
    | 'Ö' => ['O', Char.ofNat 776]
    | 'Ú' => ['U', Char.ofNat 769]
    | 'Û' => ['U', Char.ofNat 770]
    | 'Ü' => ['U', Char.ofNat 776]
    | _ => [c]

/-- NFKD-decompose a character list and drop the combining marks: the
`"".join(c for c in s if not unicodedata.combining(c))` step. -/
def deaccent (l : List Char) : List Char :=
  (l.foldr (fun c acc => nfkd c ++ acc) []).filter (fun c => !isCombining c)

/-- Models Python `str.lower()` character-wise: ASCII uppercase is shifted
into lowercase, everything else is unchanged. -/
def lowerChar (c : Char) : Char :=
  if 65 ≤ c.toNat ∧ c.toNat ≤ 90 then Char.ofNat (c.toNat + 32) else c

/-- The character class `[a-z0-9]` of the substitution regex. -/
def isLowerAlnum (c : Char) : Bool :=
  decide ((97 ≤ c.toNat ∧ c.toNat ≤ 122) ∨ (48 ≤ c.toNat ∧ c.toNat ≤ 57))

/-- Models `re.sub(r"[^a-z0-9]+", "_", s)`: each maximal run of characters
outside `[a-z0-9]` becomes a single underscore.  The flag records whether
the previous character was part of such a run. -/
def subRunsAux : Bool → List Char → List Char
  | _, [] => []
  | inRun, c :: rest =>
    if isLowerAlnum c then c :: subRunsAux false rest
    else if inRun then subRunsAux true rest
    else '_' :: subRunsAux true rest

/-- Remove the maximal all-underscore suffix (the trailing half of
Python `str.strip("_")`). -/
def dropTrailingUnd : List Char → List Char
  | [] => []
  | c :: rest =>
    match dropTrailingUnd rest with
    | [] => if c = '_' then [] else [c]
    | r => c :: r

/-- Python `s.strip("_")`: drop leading and trailing underscores. -/
def stripUnd (l : List Char) : List Char :=
  dropTrailingUnd (l.dropWhile (fun c => c == '_'))

/-- The whole `slug_from_name` pipeline on character lists. -/
def slugChars (l : List Char) : List Char :=
  stripUnd (subRunsAux false ((deaccent l).map lowerChar))

/-- Embeds `slug_from_name`: NFKD-normalize, strip combining marks,
lowercase, collapse runs of non-`[a-z0-9]` to single underscores, strip
leading/trailing underscores. -/
def slug_from_name (name : String) : String :=
  String.mk (slugChars name.data)

/-- The (year, month) part of a Python `date`; `datetime.MINYEAR` is 1. -/
structure PyDate where
  year : Nat
  month : Nat
deriving DecidableEq

/-- Embeds `infer_current_season`: before July the season started in the
previous calendar year, otherwise in the current one; the season string
concatenates the start year and the following year. -/
def infer_current_season (today : PyDate) : String :=
  let start_year := if today.month < 7 then today.year - 1 else today.year
  toString start_year ++ toString (start_year + 1)

/-- Outcome of one HTTP GET, with the body already JSON-parsed at the
type the endpoint delivers: either a response with a status code, or a
network-level failure (connection error / timeout) with no status. -/
inductive NetResult (β : Type) where
  | resp : Nat → β → NetResult β
  | netFail : NetResult β
deriving DecidableEq

/-- What `SESSION.get` + `raise_for_status` can raise: `requests.HTTPError`
for a 4xx/5xx status, or a status-less transport exception. -/
inductive HttpFailure where
  | httpError : Nat → HttpFailure
  | connectionFailure : HttpFailure
deriving DecidableEq

/-- Errors that can escape the embedded run. -/
inductive RunErr where
  | transportError : RunErr
  | keyError : RunErr
  | pyError : RunErr
deriving DecidableEq

/-- Embeds `nhl_get`: `r.raise_for_status()` raises `requests.HTTPError`
exactly for status codes 400-599, otherwise the parsed body is returned;
a network-level failure propagates as is. -/
def nhl_get {β : Type} : NetResult β → Except HttpFailure β
  | NetResult.resp status body =>
      if 400 ≤ status ∧ status < 600 then Except.error (HttpFailure.httpError status)
      else Except.ok body
  | NetResult.netFail => Except.error HttpFailure.connectionFailure

/-- The internal record `fetch_team_season_summary` builds (the `out`
dict); `data.get` of an absent field is `JVal.null`. -/
structure Summary where
  gp : JVal
  w : JVal
  l : JVal
  ties : JVal
  ot : JVal
  points : JVal
  points_pct : JVal
  rw : JVal
  row : JVal
  so_wins : JVal
  gf : JVal
  ga : JVal
  gf_per_gp : JVal
  ga_per_gp : JVal
  pp_pct : JVal
  pk_pct : JVal
  net_pp_pct : JVal
  net_pk_pct : JVal
  shots_per_gp : JVal
  sa_per_gp : JVal
  fow_pct : JVal
deriving DecidableEq

/-- The field mapping of `fetch_team_season_summary` on a successful
response body: `.get` for single-source fields, Python `or` for the
dual-named ones, `ties` pinned to null. -/
def mapSummary (data : Obj) : Summary where
  gp := data.get "gamesPlayed"
  w := data.get "wins"
  l := data.get "losses"
  ties := JVal.null
  ot := pyOr (data.get "otLosses") (data.get "overtimeLosses")
  points := data.get "points"
  points_pct := data.get "pointsPct"
  rw := data.get "regulationWins"
  row := pyOr (data.get "regulationPlusOtWins") (data.get "row")
  so_wins := data.get "shootoutWins"
  gf := data.get "goalsFor"
  ga := data.get "goalsAgainst"
  gf_per_gp := data.get "goalsForPerGame"
  ga_per_gp := data.get "goalsAgainstPerGame"
  pp_pct := data.get "powerPlayPct"
  pk_pct := data.get "penaltyKillPct"
  net_pp_pct := data.get "netPowerPlayPct"
  net_pk_pct := data.get "netPenaltyKillPct"
  shots_per_gp := data.get "shotsForPerGame"
  sa_per_gp := data.get "shotsAgainstPerGame"
  fow_pct := data.get "faceoffWinPct"

/-- Embeds `fetch_team_season_summary`, keyed on the outcome of its one
HTTP GET: the `try/except requests.HTTPError: return None` catches every
HTTP-status error (4xx and 5xx alike) and yields `none`; a status-less
transport failure is not caught and propagates. -/
def fetch_team_season_summary (res : NetResult Obj) : Except RunErr (Option Summary) :=
  match nhl_get res with
  | Except.ok data => Except.ok (some (mapSummary data))
  | Except.error (HttpFailure.httpError _) => Except.ok none
  | Except.error HttpFailure.connectionFailure => Except.error RunErr.transportError

/-- One normalized directory entry: `{"code": tri.lower(), "name": name}`.
The name is kept as the raw JSON value, as the script does. -/
structure Team where
  code : String
  name : JVal
deriving DecidableEq

/-- The display-name chain `t.get("fullName") or t.get("name") or
t.get("teamName")`. -/
def dirName (t : Obj) : JVal :=
  pyOr (pyOr (t.get "fullName") (t.get "name")) (t.get "teamName")

/-- The loop body of `fetch_active_teams` over the parsed array: keep an
entry when both `tri` and the name chain are truthy; `tri.lower()` is a
string method, so a truthy non-string code raises. -/
def parseTeams : List Obj → Except RunErr (List Team)
  | [] => Except.ok []
  | t :: rest =>
    if pyTruthy (Obj.get t "triCode") && pyTruthy (dirName t) then
      match Obj.get t "triCode" with
      | JVal.str s =>
        match parseTeams rest with
        | Except.ok ts => Except.ok ({ code := s.toLower, name := dirName t } :: ts)
        | Except.error e => Except.error e
      | _ => Except.error RunErr.pyError
    else parseTeams rest

/-- Embeds `fetch_active_teams`: one GET with no `try`, so both kinds of
transport failure abort; on success the entries are normalized. -/
def fetch_active_teams (res : NetResult (List Obj)) : Except RunErr (List Team) :=
  match nhl_get res with
  | Except.ok data => parseTeams data
  | Except.error _ => Except.error RunErr.transportError

/-- Follows the spec's words for the directory result: exactly the entries
having both a short code and a display name, the name taken from
`fullName` / `name` / `teamName` in priority order, each kept in source
order as a lowercased code paired with the name. -/
def specDirectoryTeams (data : List Obj) : List Team :=
  (data.filter (fun t => pyTruthy (t.get "triCode") && pyTruthy (dirName t))).map
    (fun t =>
      { code := (match t.get "triCode" with
                 | JVal.str s => s
                 | _ => "").toLower
        name := dirName t })

/-- A row of the read-only `nhl_teams` reference table. -/
structure NhlTeam where
  team_id : String
  team_name : String
deriving DecidableEq

/-- Models the SQL expression `lower(unaccent(x))`: diacritics stripped,
then lowercased (the `unaccent` extension is modelled, like `unicodedata`,
by NFKD decomposition plus removal of combining marks). -/
def dbNorm (s : String) : String :=
  String.mk ((deaccent s.data).map lowerChar)

/-- Embeds `team_id_from_db_or_slug`: first matching reference row under
the accent- and case-insensitive comparison (`LIMIT 1`), else the slug. -/
def team_id_from_db_or_slug (refTable : List NhlTeam) (team_name : String) : String :=
  match refTable.find? (fun r => dbNorm r.team_name == dbNorm team_name) with
  | some r => r.team_id
  | none => slug_from_name team_name

/-- A persisted `nhl_team_stats` row.  `ingested_at` is an abstract
monotone timestamp. -/
structure DbRow where
  team_id : String
  season : String
  stats : Summary
  source : String
  ingested_at : Nat
deriving DecidableEq

/-- The values bound into `UPSERT_SQL` for one execution. -/
structure UpsertParams where
  team_id : String
  season : String
  stats : Summary
  source : String
deriving DecidableEq

/-- The conflict test of the `(team_id, season)` unique key. -/
def sameKey (r : DbRow) (tid sea : String) : Bool :=
  r.team_id == tid && r.season == sea

/-- The table invariant the unique constraint enforces: no two rows share
`(team_id, season)`. -/
def keyUnique (table : List DbRow) : Prop :=
  table.Pairwise (fun a b => ¬(a.team_id = b.team_id ∧ a.season = b.season))

/-- Embeds one execution of `UPSERT_SQL` at timestamp `now`: on a
`(team_id, season)` conflict every non-key column and `ingested_at` are
set from the new values; otherwise the row is inserted.  Modelled from
the spec for the part outside `src/` (the table schema): on the insert
path `ingested_at` also takes the current time, per "`ingested_at`
always reflects the most recent write". -/
def upsert (table : List DbRow) (p : UpsertParams) (now : Nat) : List DbRow :=
  if table.any (fun r => sameKey r p.team_id p.season) then
    table.map (fun r =>
      if sameKey r p.team_id p.season then
        { team_id := r.team_id, season := r.season, stats := p.stats,
          source := p.source, ingested_at := now }
      else r)
  else
    table ++ [{ team_id := p.team_id, season := p.season, stats := p.stats,
                source := p.source, ingested_at := now }]

/-- The one connection of a run: the committed table as the run started,
and the transaction-local view the cursor writes into. -/
structure DbConn where
  committed : List DbRow
  pending : List DbRow
deriving DecidableEq

/-- `conn.commit()`: publish the pending view. -/
def commitConn (c : DbConn) : DbConn :=
  { committed := c.pending, pending := c.pending }

/-- The literal string used as the lookup key on line 10 of the script
(the `os.environ[...]` subscript). -/
def dbUrlKey : String :=
  "postgres://tsdbadmin:<TIMESCALE_DB_PASSWORD>@jbzime1eq9.rj87e4urof.tsdb.cloud.timescale.com:34545/tsdb?sslmode=require"

/-- `SEASON or infer_current_season()`: the override wins when set and
non-empty (Python truthiness of `None` and `""`). -/
def seasonOf (envSeason : Option String) (today : PyDate) : String :=
  match envSeason with
  | some s => if s = "" then infer_current_season today else s
  | none => infer_current_season today

/-- The per-team loop of `main` over the directory: skip on an empty
summary, otherwise resolve the identifier, execute the upsert into the
pending view, bump the counter and the clock.  An unhandled error stops
the loop, returning the connection as it stood. -/
def teamLoop (statsOf : String → NetResult Obj) (refTable : List NhlTeam)
    (season : String) :
    List Team → DbConn → Nat → Nat → DbConn × Except RunErr (Nat × Nat)
  | [], conn, ups, clk => (conn, Except.ok (ups, clk))
  | t :: rest, conn, ups, clk =>
    match fetch_team_season_summary (statsOf t.code) with
    | Except.error e => (conn, Except.error e)
    | Except.ok none => teamLoop statsOf refTable season rest conn ups clk
    | Except.ok (some summary) =>
      match t.name with
      | JVal.str nm =>
        let tid := team_id_from_db_or_slug refTable nm
        let p : UpsertParams :=
          { team_id := tid, season := season, stats := summary,
            source := "api-web.nhle.com/" ++ t.code ++ "/" ++ season }
        teamLoop statsOf refTable season rest
          { committed := conn.committed, pending := upsert conn.pending p clk }
          (ups + 1) (clk + 1)
      | _ => (conn, Except.error RunErr.pyError)

/-- Embeds one invocation of the script: module init reads the
environment at `dbUrlKey` (KeyError when absent, before any network or
database activity), then `main` resolves the season, opens the
connection over the committed table `db0`, fetches the directory, runs
the per-team loop, and commits once at the very end.  The returned table
is what is durably committed when the process ends. -/
def mainRun (env : String → Option String) (today : PyDate)
    (dirRes : NetResult (List Obj)) (statsOf : String → NetResult Obj)
    (refTable : List NhlTeam) (db0 : List DbRow) :
    List DbRow × Except RunErr Nat :=
  match env dbUrlKey with
  | none => (db0, Except.error RunErr.keyError)
  | some _ =>
    let season := seasonOf (env "NHL_SEASON") today
    let conn0 : DbConn := { committed := db0, pending := db0 }
    match fetch_active_teams dirRes with
    | Except.error e => (conn0.committed, Except.error e)
    | Except.ok teams =>
      match teamLoop statsOf refTable season teams conn0 0 0 with
      | (conn, Except.error e) => (conn.committed, Except.error e)
      | (conn, Except.ok (ups, _)) => ((commitConn conn).committed, Except.ok ups)

/-- Whether a JSON value is a string (can receive `str` methods). -/
def JVal.isStr : JVal → Bool
  | JVal.str _ => true
  | _ => false

/-- Two adjacent slug characters are never both underscores. -/
def notUU (a b : Char) : Prop :=
  ¬(a = '_' ∧ b = '_')

/-- A 32-entry directory response whose last entry has a code but lacks
all three name fields. -/
def dirExample : List Obj :=
  ((List.range 31).map (fun i =>
    [("triCode", JVal.str ("t" ++ toString i)),
     ("fullName", JVal.str ("Team " ++ toString i))]))
  ++ [[("franchiseId", JVal.num 99), ("triCode", JVal.str "mal")]]

/-- A sample pre-existing persisted row, used in concrete run scenarios. -/
def sampleRow : DbRow :=
  { team_id := "bos", season := "20252026", stats := mapSummary [],
    source := "old", ingested_at := 7 }

/-- A sample open connection whose committed and pending views hold the
sample row. -/
def sampleConn : DbConn :=
  { committed := [sampleRow], pending := [sampleRow] }

/-- A sample normalized directory entry. -/
def sampleTeam : Team :=
  { code := "bos", name := JVal.str "Boston Bruins" }

/-! ### Helper lemmas about the slug pipeline -/

theorem und_not_alnum : isLowerAlnum '_' = false := by decide

theorem mem_subRunsAux : ∀ (b : Bool) (l : List Char) (c : Char),
    c ∈ subRunsAux b l → isLowerAlnum c = true ∨ c = '_' := by
  intro b l
  induction l generalizing b with
  | nil => intro c h; simp [subRunsAux] at h
  | cons a rest ih =>
    intro c h
    unfold subRunsAux at h
    split at h
    · rcases List.mem_cons.mp h with rfl | h
      · exact Or.inl (by assumption)
      · exact ih false c h
    · split at h
      · exact ih true c h
      · rcases List.mem_cons.mp h with rfl | h
        · exact Or.inr rfl
        · exact ih true c h

theorem subRunsAux_true_head : ∀ (l : List Char) (a : Char) (t : List Char),
    subRunsAux true l = a :: t → isLowerAlnum a = true := by
  intro l
  induction l with
  | nil => intro a t h; simp [subRunsAux] at h
  | cons x rest ih =>
    intro a t h
    unfold subRunsAux at h
    split at h
    · cases h; assumption
    · exact ih a t h

theorem alnum_ne_und {a : Char} (h : isLowerAlnum a = true) : a ≠ '_' := by
  intro rfh
  rw [rfh, und_not_alnum] at h
  exact Bool.false_ne_true h

theorem chain'_subRunsAux : ∀ (b : Bool) (l : List Char),
    List.Chain' notUU (subRunsAux b l) := by
  intro b l
  induction l generalizing b with
  | nil => simp [subRunsAux]
  | cons a rest ih =>
    unfold subRunsAux
    split
    · refine List.chain'_cons'.mpr ⟨?_, ih false⟩
      intro y _
      exact fun hy => alnum_ne_und (by assumption) hy.1
    · split
      · exact ih true
      · refine List.chain'_cons'.mpr ⟨?_, ih true⟩
        intro y hy
        cases hrec : subRunsAux true rest with
        | nil => rw [hrec] at hy; simp at hy
        | cons z zs =>
          rw [hrec] at hy
          simp at hy
          subst hy
          exact fun hz => alnum_ne_und (subRunsAux_true_head rest z zs hrec) hz.2

theorem chain'_dropWhile {α : Type} {R : α → α → Prop} (p : α → Bool) :
    ∀ l : List α, List.Chain' R l → List.Chain' R (l.dropWhile p) := by
  intro l
  induction l with
  | nil => intro h; exact h
  | cons a rest ih =>
    intro h
    by_cases hp : p a = true
    · rw [List.dropWhile_cons_of_pos hp]
      exact ih (List.chain'_cons'.mp h).2
    · rw [List.dropWhile_cons_of_neg hp]
      exact h

theorem dropWhile_head_false {α : Type} (p : α → Bool) :
    ∀ (l : List α) (a : α) (t : List α), l.dropWhile p = a :: t → p a = false := by
  intro l
  induction l with
  | nil => intro a t h; simp at h
  | cons b rest ih =>
    intro a t h
    by_cases hp : p b = true
    · rw [List.dropWhile_cons_of_pos hp] at h
      exact ih a t h
    · rw [List.dropWhile_cons_of_neg hp] at h
      cases h
      exact Bool.eq_false_iff.mpr hp

theorem dropWhile_eq_self {α : Type} (p : α → Bool) (l : List α)
    (h : ∀ a t, l = a :: t → p a = false) : l.dropWhile p = l := by
  cases l with
  | nil => rfl
  | cons a t =>
    exact List.dropWhile_cons_of_neg (Bool.eq_false_iff.mp (h a t rfl))

theorem mem_dropTrailingUnd : ∀ (l : List Char) (c : Char),
    c ∈ dropTrailingUnd l → c ∈ l := by
  intro l
  induction l with
  | nil => intro c h; exact h
  | cons a rest ih =>
    intro c h
    unfold dropTrailingUnd at h
    cases hr : dropTrailingUnd rest with
    | nil =>
      rw [hr] at h
      by_cases ha : a = '_'
      · rw [if_pos ha] at h
        simp at h
      · rw [if_neg ha] at h
        rcases List.mem_cons.mp h with rfl | h
        · exact List.mem_cons_self _ _
        · simp at h
    | cons x xs =>
      rw [hr] at h
      rcases List.mem_cons.mp h with rfl | h
      · exact List.mem_cons_self _ _
      · exact List.mem_cons_of_mem a (ih c (hr ▸ h))

theorem head_dropTrailingUnd : ∀ (l : List Char) (a : Char) (t : List Char),
    dropTrailingUnd l = a :: t → ∃ t', l = a :: t' := by
  intro l a t h
  cases l with
  | nil => simp [dropTrailingUnd] at h
  | cons b rest =>
    unfold dropTrailingUnd at h
    cases hr : dropTrailingUnd rest with
    | nil =>
      rw [hr] at h
      by_cases hb : b = '_'
      · rw [if_pos hb] at h
        simp at h
      · rw [if_neg hb] at h
        cases h
        exact ⟨rest, rfl⟩
    | cons x xs =>
      rw [hr] at h
      cases h
      exact ⟨rest, rfl⟩

theorem getLast?_dropTrailingUnd : ∀ l : List Char,
    (dropTrailingUnd l).getLast? ≠ some '_' := by
  intro l
  induction l with
  | nil => simp [dropTrailingUnd]
  | cons a rest ih =>
    unfold dropTrailingUnd
    cases hr : dropTrailingUnd rest with
    | nil =>
      by_cases ha : a = '_'
      · rw [if_pos ha]
        simp
      · rw [if_neg ha]
        simp only [List.getLast?_singleton]
        intro h
        injection h with h
        exact ha h
    | cons x xs =>
      rw [List.getLast?_cons_cons]
      rw [← hr]
      exact ih

theorem chain'_dropTrailingUnd {R : Char → Char → Prop} :
    ∀ l : List Char, List.Chain' R l → List.Chain' R (dropTrailingUnd l) := by
  intro l
  induction l with
  | nil => intro h; exact h
  | cons a rest ih =>
    intro h
    unfold dropTrailingUnd
    cases hr : dropTrailingUnd rest with
    | nil =>
      by_cases ha : a = '_'
      · rw [if_pos ha]
        exact List.chain'_nil
      · rw [if_neg ha]
        exact List.chain'_singleton a
    | cons x xs =>
      refine List.chain'_cons'.mpr ⟨?_, hr ▸ ih (List.chain'_cons'.mp h).2⟩
      intro y hy
      simp only [List.head?_cons, Option.mem_def, Option.some.injEq] at hy
      obtain ⟨t', ht'⟩ := head_dropTrailingUnd rest x xs hr
      have h1 := (List.chain'_cons'.mp h).1
      rw [ht'] at h1
      rw [← hy]
      exact h1 x rfl

theorem dropTrailingUnd_eq_self : ∀ l : List Char,
    l.getLast? ≠ some '_' → dropTrailingUnd l = l := by
  intro l
  induction l with
  | nil => intro _; rfl
  | cons a rest ih =>
    intro h
    cases rest with
    | nil =>
      have ha : ¬a = '_' := by
        intro hc
        exact h (by rw [hc]; rfl)
      simp [dropTrailingUnd, ha]
    | cons b t =>
      rw [List.getLast?_cons_cons] at h
      have hrest := ih h
      unfold dropTrailingUnd
      rw [hrest]

theorem stripUnd_head (l : List Char) (a : Char) (t : List Char)
    (h : stripUnd l = a :: t) : a ≠ '_' := by
  unfold stripUnd at h
  obtain ⟨t', ht'⟩ := head_dropTrailingUnd _ a t h
  have := dropWhile_head_false (fun c => c == '_') l a t' ht'
  simpa using this

theorem stripUnd_getLast? (l : List Char) : (stripUnd l).getLast? ≠ some '_' :=
  getLast?_dropTrailingUnd _

theorem chain'_stripUnd {R : Char → Char → Prop} (l : List Char)
    (h : List.Chain' R l) : List.Chain' R (stripUnd l) :=
  chain'_dropTrailingUnd _ (chain'_dropWhile _ _ h)

theorem mem_stripUnd (l : List Char) (c : Char) (h : c ∈ stripUnd l) : c ∈ l := by
  unfold stripUnd at h
  have h2 := mem_dropTrailingUnd _ c h
  exact (List.dropWhile_sublist (fun c => c == '_')).subset h2

theorem stripUnd_eq_self (l : List Char)
    (hh : ∀ a t, l = a :: t → a ≠ '_') (hl : l.getLast? ≠ some '_') :
    stripUnd l = l := by
  unfold stripUnd
  rw [dropWhile_eq_self _ l (fun a t ht => by simpa using hh a t ht)]
  exact dropTrailingUnd_eq_self l hl

theorem subRunsAux_id : ∀ l : List Char,
    (∀ c ∈ l, isLowerAlnum c = true ∨ c = '_') → List.Chain' notUU l →
    subRunsAux false l = l ∧
      ((∀ a t, l = a :: t → a ≠ '_') → subRunsAux true l = l) := by
  intro l
  induction l with
  | nil => intro _ _; exact ⟨rfl, fun _ => rfl⟩
  | cons a rest ih =>
    intro hmem hch
    have hmem' : ∀ c ∈ rest, isLowerAlnum c = true ∨ c = '_' :=
      fun c hc => hmem c (List.mem_cons_of_mem a hc)
    have hch' := (List.chain'_cons'.mp hch).2
    obtain ⟨ih1, ih2⟩ := ih hmem' hch'
    constructor
    · rcases hmem a (List.mem_cons_self a rest) with ha | ha
      · unfold subRunsAux
        rw [if_pos ha, ih1]
      · subst ha
        unfold subRunsAux
        rw [if_neg (by rw [und_not_alnum]; exact Bool.false_ne_true), if_neg Bool.false_ne_true]
        rw [ih2 ?_]
        intro b t hbt
        have := (List.chain'_cons'.mp hch).1
        rw [hbt] at this
        intro hb
        exact this b rfl ⟨rfl, hb⟩
    · intro hhead
      have ha : a ≠ '_' := hhead a rest rfl
      have halnum : isLowerAlnum a = true :=
        (hmem a (List.mem_cons_self a rest)).resolve_right ha
      unfold subRunsAux
      rw [if_pos halnum, ih1]

theorem alnum_toNat_lt {c : Char} (h : isLowerAlnum c = true ∨ c = '_') :
    c.toNat < 128 := by
  rcases h with h | rfl
  · have := of_decide_eq_true h
    omega
  · decide

theorem nfkd_ascii (c : Char) (h : c.toNat < 128) : nfkd c = [c] := by
  unfold nfkd
  rw [if_pos h]

theorem isCombining_ascii (c : Char) (h : c.toNat < 128) : isCombining c = false := by
  unfold isCombining
  apply decide_eq_false
  omega

theorem lowerChar_id {c : Char} (h : isLowerAlnum c = true ∨ c = '_') :
    lowerChar c = c := by
  rcases h with h | rfl
  · have := of_decide_eq_true h
    unfold lowerChar
    rw [if_neg (by omega)]
  · decide

theorem deaccent_id : ∀ l : List Char, (∀ c ∈ l, c.toNat < 128) → deaccent l = l := by
  intro l
  induction l with
  | nil => intro _; rfl
  | cons a rest ih =>
    intro h
    have ha := h a (List.mem_cons_self a rest)
    unfold deaccent
    simp only [List.foldr_cons]
    rw [nfkd_ascii a ha]
    simp only [List.singleton_append]
    rw [List.filter_cons_of_pos (by rw [isCombining_ascii a ha]; rfl)]
    have := ih (fun c hc => h c (List.mem_cons_of_mem a hc))
    unfold deaccent at this
    rw [this]

theorem map_lowerChar_id : ∀ l : List Char,
    (∀ c ∈ l, isLowerAlnum c = true ∨ c = '_') → l.map lowerChar = l := by
  intro l
  induction l with
  | nil => intro _; rfl
  | cons a rest ih =>
    intro h
    simp only [List.map_cons]
    rw [lowerChar_id (h a (List.mem_cons_self a rest)),
      ih (fun c hc => h c (List.mem_cons_of_mem a hc))]

theorem slugChars_mem (l : List Char) :
    ∀ c ∈ slugChars l, isLowerAlnum c = true ∨ c = '_' := by
  intro c hc
  unfold slugChars at hc
  exact mem_subRunsAux false _ c (mem_stripUnd _ c hc)

theorem slugChars_chain' (l : List Char) : List.Chain' notUU (slugChars l) :=
  chain'_stripUnd _ (chain'_subRunsAux false _)

theorem slugChars_head (l : List Char) (a : Char) (t : List Char)
    (h : slugChars l = a :: t) : a ≠ '_' :=
  stripUnd_head _ a t h

theorem slugChars_getLast? (l : List Char) : (slugChars l).getLast? ≠ some '_' :=
  stripUnd_getLast? _

theorem slugChars_idem (l : List Char) : slugChars (slugChars l) = slugChars l := by
  have hmem := slugChars_mem l
  have hch := slugChars_chain' l
  conv_lhs => rw [slugChars]
  rw [deaccent_id _ (fun c hc => alnum_toNat_lt (hmem c hc))]
  rw [map_lowerChar_id _ hmem]
  rw [(subRunsAux_id _ hmem hch).1]
  exact stripUnd_eq_self _ (fun a t ht => slugChars_head l a t ht) (slugChars_getLast? l)

/-! ### Claims C9 and C10: the identifier resolver and the slug -/

/-- C9 (slug fallback): for every team display name absent from the
reference table under the case- and accent-insensitive lookup, the
resolver returns the deterministic slug of the name; in particular
"Montréal Canadiens" yields "montreal_canadiens".  The resolver is a
total function, so it has no error conditions. -/
theorem claim_C9_slug_fallback (refTable : List NhlTeam) (name : String)
    (h : ∀ r ∈ refTable, dbNorm r.team_name ≠ dbNorm name) :
    team_id_from_db_or_slug refTable name = slug_from_name name
    ∧ slug_from_name "Montréal Canadiens" = "montreal_canadiens" := by
  constructor
  · unfold team_id_from_db_or_slug
    rw [List.find?_eq_none.mpr]
    intro r hr
    simpa using h r hr
  · decide

/-- Witness for C9: with an empty reference table, the resolver maps
"Montréal Canadiens" to the slug "montreal_canadiens". -/
theorem claim_C9_slug_fallback_witness :
    team_id_from_db_or_slug [] "Montréal Canadiens" = "montreal_canadiens" := by
  have h := claim_C9_slug_fallback [] "Montréal Canadiens" (by simp)
  rw [h.1, h.2]

/-- C10 (implicit slug invariant and idempotence): every slug consists
only of ASCII lowercase letters, digits and underscores, has no leading
or trailing underscore and no two consecutive underscores, and applying
`slug_from_name` to its own output returns the output unchanged. -/
theorem claim_C10_slug_invariant_idempotent (s : String) :
    (∀ c ∈ (slug_from_name s).data, isLowerAlnum c = true ∨ c = '_')
    ∧ List.Chain' notUU (slug_from_name s).data
    ∧ (slug_from_name s).data.head? ≠ some '_'
    ∧ (slug_from_name s).data.getLast? ≠ some '_'
    ∧ slug_from_name (slug_from_name s) = slug_from_name s := by
  refine ⟨slugChars_mem s.data, slugChars_chain' s.data, ?_, slugChars_getLast? s.data, ?_⟩
  · show (slugChars s.data).head? ≠ some '_'
    cases hc : slugChars s.data with
    | nil => simp
    | cons a t =>
      simp only [List.head?_cons]
      intro he
      injection he with he
      exact slugChars_head s.data a t hc he
  · show String.mk (slugChars (slugChars s.data)) = String.mk (slugChars s.data)
    rw [slugChars_idem]

/-- Witness for C10 at a concrete name with accents, punctuation and
spaces: the slug is a fixpoint of the slug function. -/
theorem claim_C10_slug_invariant_idempotent_witness :
    slug_from_name (slug_from_name " Québec--Nordiques 2! ")
      = slug_from_name " Québec--Nordiques 2! " :=
  (claim_C10_slug_invariant_idempotent " Québec--Nordiques 2! ").2.2.2.2

/-! ### Claim C5: season inference -/

/-- C5 (season inference rule): with no override, for any as-of date in
calendar year Y (Python years start at 1), a month in 7..12 yields the
season string "{Y}{Y+1}" and a month in 1..6 yields "{Y-1}{Y}"; the
resolver is a total function and always succeeds. -/
theorem claim_C5_season_inference (Y m : Nat) (hY : 1 ≤ Y) :
    (7 ≤ m → m ≤ 12 → infer_current_season ⟨Y, m⟩ = toString Y ++ toString (Y + 1))
    ∧ (1 ≤ m → m ≤ 6 → infer_current_season ⟨Y, m⟩ = toString (Y - 1) ++ toString Y) := by
  constructor
  · intro h7 _
    unfold infer_current_season
    simp only
    rw [if_neg (by omega)]
  · intro _ h6
    unfold infer_current_season
    simp only
    rw [if_pos (by omega)]
    have hY1 : Y - 1 + 1 = Y := by omega
    rw [hY1]

/-- Witness for C5: October 2025 maps to season "20252026" and March
2025 maps to season "20242025". -/
theorem claim_C5_season_inference_witness :
    infer_current_season ⟨2025, 10⟩ = "20252026"
    ∧ infer_current_season ⟨2025, 3⟩ = "20242025" := by
  constructor
  · rw [(claim_C5_season_inference 2025 10 (by decide)).1 (by decide) (by decide)]
    decide
  · rw [(claim_C5_season_inference 2025 3 (by decide)).2 (by decide) (by decide)]
    decide

/-! ### Claim C4: alternate-field fallback (corrected) -/

/-- C4 counterexample: in a response where `otLosses` is present with
value 0 and `overtimeLosses` is present with value 5, the mapped `ot`
is NOT the value of the first present source field (`otLosses` = 0) —
Python `or` skips the falsy 0 and takes 5. -/
theorem claim_C4_counterexample :
    Obj.hasKey [("otLosses", JVal.num 0), ("overtimeLosses", JVal.num 5)] "otLosses" = true
    ∧ (mapSummary [("otLosses", JVal.num 0), ("overtimeLosses", JVal.num 5)]).ot
        ≠ Obj.get [("otLosses", JVal.num 0), ("overtimeLosses", JVal.num 5)] "otLosses" := by
  constructor
  · decide
  · decide

/-- C4 amended: for each dual-named field, the first source field whose
value is truthy (non-null, non-zero, non-empty) wins; when the primary
is absent or holds a falsy value, the alternate's value is used — in
particular a response missing `regulationPlusOtWins` but carrying `row`
maps `row` to the `row` value. -/
theorem claim_C4_alternate_field_fallback (data : Obj) :
    (pyTruthy (data.get "otLosses") = true →
        (mapSummary data).ot = data.get "otLosses")
    ∧ (pyTruthy (data.get "otLosses") = false →
        (mapSummary data).ot = data.get "overtimeLosses")
    ∧ (pyTruthy (data.get "regulationPlusOtWins") = true →
        (mapSummary data).row = data.get "regulationPlusOtWins")
    ∧ (pyTruthy (data.get "regulationPlusOtWins") = false →
        (mapSummary data).row = data.get "row")
    ∧ (data.hasKey "regulationPlusOtWins" = false →
        (mapSummary data).row = data.get "row") := by
  refine ⟨?_, ?_, ?_, ?_, ?_⟩
  · intro h
    show pyOr (data.get "otLosses") (data.get "overtimeLosses") = data.get "otLosses"
    unfold pyOr
    rw [if_pos h]
  · intro h
    show pyOr (data.get "otLosses") (data.get "overtimeLosses") = data.get "overtimeLosses"
    unfold pyOr
    rw [if_neg (by rw [h]; exact Bool.false_ne_true)]
  · intro h
    show pyOr (data.get "regulationPlusOtWins") (data.get "row") = data.get "regulationPlusOtWins"
    unfold pyOr
    rw [if_pos h]
  · intro h
    show pyOr (data.get "regulationPlusOtWins") (data.get "row") = data.get "row"
    unfold pyOr
    rw [if_neg (by rw [h]; exact Bool.false_ne_true)]
  · intro h
    show pyOr (data.get "regulationPlusOtWins") (data.get "row") = data.get "row"
    unfold pyOr
    rw [if_neg ?_]
    have hfind : data.find? (fun kv => kv.1 == "regulationPlusOtWins") = none := by
      rw [List.find?_eq_none]
      intro kv hkv hbeq
      have : data.any (fun kv => kv.1 == "regulationPlusOtWins") = true :=
        List.any_eq_true.mpr ⟨kv, hkv, hbeq⟩
      rw [Obj.hasKey] at h
      rw [h] at this
      exact Bool.false_ne_true this
    show ¬pyTruthy (data.get "regulationPlusOtWins") = true
    rw [Obj.get, hfind]
    exact Bool.false_ne_true

/-- Witness for C4 amended: a response missing `regulationPlusOtWins`
but holding `row` = 7 maps `row` to 7, and a truthy `otLosses` = 3
wins over `overtimeLosses` = 4. -/
theorem claim_C4_alternate_field_fallback_witness :
    (mapSummary [("row", JVal.num 7)]).row = JVal.num 7
    ∧ (mapSummary [("otLosses", JVal.num 3), ("overtimeLosses", JVal.num 4)]).ot = JVal.num 3 := by
  constructor
  · rw [(claim_C4_alternate_field_fallback [("row", JVal.num 7)]).2.2.2.2 (by decide)]
    decide
  · rw [(claim_C4_alternate_field_fallback
      [("otLosses", JVal.num 3), ("overtimeLosses", JVal.num 4)]).1 (by decide)]
    decide

/-! ### Claim C3: stats-fetch error discrimination (corrected) -/

/-- C3 counterexample: an HTTP 500 server-error status on the stats
fetch does not raise; the fetcher returns the empty result (skip), so
the run is not aborted as the claim requires. -/
theorem claim_C3_counterexample :
    fetch_team_season_summary (NetResult.resp 500 ([] : Obj)) = Except.ok none
    ∧ (Except.ok (none : Option Summary) : Except RunErr (Option Summary))
        ≠ Except.error RunErr.transportError := by
  constructor
  · decide
  · decide

/-- C3 amended: every HTTP error status (400-599, not-found and
server errors alike) makes the fetcher return the empty result, so the
team is skipped; only a status-less transport failure (connection error
or timeout) raises `TransportError` and aborts the run; a success
status returns the mapped summary. -/
theorem claim_C3_fetch_error_discrimination (st : Nat) (d : Obj) :
    (400 ≤ st → st < 600 →
        fetch_team_season_summary (NetResult.resp st d) = Except.ok none)
    ∧ fetch_team_season_summary (NetResult.netFail : NetResult Obj)
        = Except.error RunErr.transportError
    ∧ (st < 400 →
        fetch_team_season_summary (NetResult.resp st d) = Except.ok (some (mapSummary d))) := by
  refine ⟨?_, rfl, ?_⟩
  · intro h4 h6
    simp only [fetch_team_season_summary, nhl_get]
    rw [if_pos ⟨h4, h6⟩]
  · intro h
    simp only [fetch_team_season_summary, nhl_get]
    rw [if_neg (by omega)]

/-- Witness for C3 amended: status 404 yields the skip result, a
network failure yields the transport error, and status 200 yields the
mapped summary. -/
theorem claim_C3_fetch_error_discrimination_witness :
    fetch_team_season_summary (NetResult.resp 404 ([("wins", JVal.num 7)] : Obj)) = Except.ok none
    ∧ fetch_team_season_summary (NetResult.netFail : NetResult Obj)
        = Except.error RunErr.transportError
    ∧ fetch_team_season_summary (NetResult.resp 200 ([("wins", JVal.num 7)] : Obj))
        = Except.ok (some (mapSummary [("wins", JVal.num 7)])) := by
  refine ⟨?_, ?_, ?_⟩
  · exact (claim_C3_fetch_error_discrimination 404 [("wins", JVal.num 7)]).1
      (by decide) (by decide)
  · exact (claim_C3_fetch_error_discrimination 0 []).2.1
  · exact (claim_C3_fetch_error_discrimination 200 [("wins", JVal.num 7)]).2.2 (by decide)

/-! ### Helper lemmas about the upsert -/

theorem sameKey_iff (r : DbRow) (tid sea : String) :
    sameKey r tid sea = true ↔ (r.team_id = tid ∧ r.season = sea) := by
  unfold sameKey
  rw [Bool.and_eq_true, beq_iff_eq, beq_iff_eq]

theorem filter_key_length_le_one (table : List DbRow) (tid sea : String)
    (hu : keyUnique table) :
    (table.filter (fun r => sameKey r tid sea)).length ≤ 1 := by
  induction table with
  | nil => simp
  | cons a rest ih =>
    rw [keyUnique, List.pairwise_cons] at hu
    obtain ⟨ha, hrest⟩ := hu
    rw [List.filter_cons]
    split
    · rename_i hk
      have hnil : rest.filter (fun r => sameKey r tid sea) = [] := by
        rw [List.filter_eq_nil_iff]
        intro x hx hxk
        obtain ⟨h1, h2⟩ := (sameKey_iff a tid sea).mp hk
        obtain ⟨h3, h4⟩ := (sameKey_iff x tid sea).mp hxk
        exact ha x hx ⟨h1.trans h3.symm, h2.trans h4.symm⟩
      rw [hnil]
      simp
    · exact ih hrest

theorem upsert_key_fields (table : List DbRow) (p : UpsertParams) (t : Nat) :
    ∀ r ∈ upsert table p t, sameKey r p.team_id p.season = true →
      r.stats = p.stats ∧ r.source = p.source ∧ r.ingested_at = t := by
  intro r hr hk
  unfold upsert at hr
  split at hr
  · obtain ⟨r0, hr0, hfr⟩ := List.mem_map.mp hr
    by_cases h0 : sameKey r0 p.team_id p.season = true
    · rw [if_pos h0] at hfr
      rw [← hfr]
      exact ⟨rfl, rfl, rfl⟩
    · rw [if_neg h0] at hfr
      rw [← hfr] at hk
      exact absurd hk h0
  · rename_i hany
    rcases List.mem_append.mp hr with h | h
    · exact absurd (List.any_eq_true.mpr ⟨r, h, hk⟩) hany
    · rcases List.mem_singleton.mp h with rfl
      exact ⟨rfl, rfl, rfl⟩

theorem upsert_key_count (table : List DbRow) (p : UpsertParams) (t : Nat)
    (hu : keyUnique table) :
    ((upsert table p t).filter (fun r => sameKey r p.team_id p.season)).length = 1 := by
  unfold upsert
  split
  · rename_i hany
    rw [List.filter_map, List.length_map]
    rw [List.filter_congr (q := fun r => sameKey r p.team_id p.season) ?_]
    · obtain ⟨r, hr, hk⟩ := List.any_eq_true.mp hany
      have hpos : 0 <
          (table.filter (fun r => sameKey r p.team_id p.season)).length :=
        List.length_pos.mpr (List.ne_nil_of_mem (List.mem_filter.mpr ⟨hr, hk⟩))
      have hle := filter_key_length_le_one table p.team_id p.season hu
      omega
    · intro a _
      show sameKey (if sameKey a p.team_id p.season then _ else a) p.team_id p.season
        = sameKey a p.team_id p.season
      by_cases h0 : sameKey a p.team_id p.season = true
      · rw [if_pos h0]
        rfl
      · rw [if_neg h0]
  · rename_i hany
    rw [List.filter_append]
    rw [List.filter_eq_nil_iff.mpr
      (fun a ha hk => hany (List.any_eq_true.mpr ⟨a, ha, hk⟩))]
    rw [List.nil_append, List.filter_cons]
    rw [if_pos ?_]
    · simp
    · show sameKey
        { team_id := p.team_id, season := p.season, stats := p.stats,
          source := p.source, ingested_at := t } p.team_id p.season = true
      rw [sameKey_iff]
      exact ⟨rfl, rfl⟩

theorem upsert_keyUnique (table : List DbRow) (p : UpsertParams) (t : Nat)
    (hu : keyUnique table) : keyUnique (upsert table p t) := by
  unfold upsert
  split
  · unfold keyUnique at *
    rw [List.pairwise_map]
    refine hu.imp ?_
    intro a b hab
    have ha : ∀ r : DbRow,
        ((if sameKey r p.team_id p.season then
          { team_id := r.team_id, season := r.season, stats := p.stats,
            source := p.source, ingested_at := t } else r) : DbRow).team_id = r.team_id
        ∧ ((if sameKey r p.team_id p.season then
          { team_id := r.team_id, season := r.season, stats := p.stats,
            source := p.source, ingested_at := t } else r) : DbRow).season = r.season := by
      intro r
      by_cases h0 : sameKey r p.team_id p.season = true
      · rw [if_pos h0]
        exact ⟨rfl, rfl⟩
      · rw [if_neg h0]
        exact ⟨rfl, rfl⟩
    rw [(ha a).1, (ha a).2, (ha b).1, (ha b).2]
    exact hab
  · rename_i hany
    unfold keyUnique at *
    rw [List.pairwise_append]
    refine ⟨hu, List.pairwise_singleton _ _, ?_⟩
    intro a ha b hb
    rcases List.mem_singleton.mp hb with rfl
    intro hcontra
    exact hany (List.any_eq_true.mpr
      ⟨a, ha, (sameKey_iff a p.team_id p.season).mpr ⟨hcontra.1, hcontra.2⟩⟩)

/-! ### Claim C1: upsert idempotence -/

/-- C1 (upsert idempotence): starting from any table satisfying the
unique-key constraint, performing the upsert twice with identical input
for the same (team_id, season) key leaves exactly one row for that key,
whose non-key columns equal the record's values, whose `ingested_at` is
the second run's time — hence at least the first run's time under a
monotone clock — and the resulting table never holds two rows with the
same (team_id, season). -/
theorem claim_C1_upsert_idempotence (table : List DbRow) (p : UpsertParams)
    (t1 t2 : Nat) (hu : keyUnique table) (ht : t1 ≤ t2) :
    ((upsert (upsert table p t1) p t2).filter
        (fun r => sameKey r p.team_id p.season)).length = 1
    ∧ (∀ r ∈ upsert (upsert table p t1) p t2,
        sameKey r p.team_id p.season = true →
          r.stats = p.stats ∧ r.source = p.source ∧ r.ingested_at = t2)
    ∧ (∀ r1 ∈ upsert table p t1, ∀ r2 ∈ upsert (upsert table p t1) p t2,
        sameKey r1 p.team_id p.season = true →
        sameKey r2 p.team_id p.season = true →
          r1.ingested_at ≤ r2.ingested_at)
    ∧ keyUnique (upsert (upsert table p t1) p t2) := by
  have hu1 := upsert_keyUnique table p t1 hu
  refine ⟨upsert_key_count _ p t2 hu1, upsert_key_fields _ p t2, ?_,
    upsert_keyUnique _ p t2 hu1⟩
  intro r1 h1 r2 h2 hk1 hk2
  rw [(upsert_key_fields table p t1 r1 h1 hk1).2.2,
    (upsert_key_fields (upsert table p t1) p t2 r2 h2 hk2).2.2]
  exact ht

/-- Witness for C1: two upserts of the same record into the empty table
at times 0 and 1 leave exactly one row for the key. -/
theorem claim_C1_upsert_idempotence_witness :
    ((upsert (upsert []
        { team_id := "bos", season := "20252026", stats := mapSummary [],
          source := "src" } 0)
        { team_id := "bos", season := "20252026", stats := mapSummary [],
          source := "src" } 1).filter
      (fun r => sameKey r "bos" "20252026")).length = 1 :=
  (claim_C1_upsert_idempotence []
    { team_id := "bos", season := "20252026", stats := mapSummary [],
      source := "src" } 0 1 List.Pairwise.nil (by omega)).1

/-! ### Helper lemmas about the run orchestrator -/

theorem teamLoop_committed (statsOf : String → NetResult Obj)
    (refTable : List NhlTeam) (season : String) :
    ∀ (teams : List Team) (conn : DbConn) (ups clk : Nat),
      ((teamLoop statsOf refTable season teams conn ups clk).1).committed
        = conn.committed := by
  intro teams
  induction teams with
  | nil => intro conn ups clk; rfl
  | cons t rest ih =>
    intro conn ups clk
    cases hf : fetch_team_season_summary (statsOf t.code) with
    | error e =>
      simp only [teamLoop, hf]
    | ok s =>
      cases s with
      | none =>
        simp only [teamLoop, hf]
        exact ih conn ups clk
      | some summary =>
        cases hn : t.name with
        | null => simp only [teamLoop, hf, hn]
        | num q => simp only [teamLoop, hf, hn]
        | bool b => simp only [teamLoop, hf, hn]
        | str nm =>
          simp only [teamLoop, hf, hn]
          exact ih _ _ _

/-! ### Claim C6: no-data frame property -/

/-- C6 (no-data frame property): when the stats fetcher returns the
empty result for a team, processing that team changes nothing — the
connection (committed and pending tables, hence any prior row for that
team) and the success counter are exactly as if the team were not in
the directory at all. -/
theorem claim_C6_no_data_frame (statsOf : String → NetResult Obj)
    (refTable : List NhlTeam) (season : String) (t : Team) (rest : List Team)
    (conn : DbConn) (ups clk : Nat)
    (h : fetch_team_season_summary (statsOf t.code) = Except.ok none) :
    teamLoop statsOf refTable season (t :: rest) conn ups clk
      = teamLoop statsOf refTable season rest conn ups clk := by
  simp only [teamLoop, h]

/-- Witness for C6: a team whose stats fetch returns 404 is skipped,
leaving a nonempty table and the counter untouched. -/
theorem claim_C6_no_data_frame_witness :
    teamLoop (fun _ => NetResult.resp 404 []) [] "20252026"
        [sampleTeam] sampleConn 3 5
      = teamLoop (fun _ => NetResult.resp 404 []) [] "20252026"
        [] sampleConn 3 5 :=
  claim_C6_no_data_frame (fun _ => NetResult.resp 404 []) [] "20252026"
    sampleTeam [] sampleConn 3 5 (by decide)

/-! ### Claim C7: required configuration -/

/-- C7 (required configuration): whenever the environment lacks the
connection-string key the script looks up, the run fails at module
initialization with a KeyError, the persisted table is unchanged, and
the result does not depend on the network oracles at all (no network
call or database write is consulted). -/
theorem claim_C7_required_configuration (env : String → Option String)
    (today : PyDate) (dirRes : NetResult (List Obj))
    (statsOf : String → NetResult Obj) (refTable : List NhlTeam)
    (db0 : List DbRow) (h : env dbUrlKey = none) :
    mainRun env today dirRes statsOf refTable db0
      = (db0, Except.error RunErr.keyError) := by
  simp only [mainRun, h]

/-- Witness for C7: with an empty environment the run fails with the
configuration KeyError and a nonempty table is left untouched, for an
arbitrary choice of network behaviour. -/
theorem claim_C7_required_configuration_witness :
    mainRun (fun _ => none) ⟨2025, 10⟩ (NetResult.resp 200 dirExample)
        (fun _ => NetResult.netFail) [] [sampleRow]
      = ([sampleRow], Except.error RunErr.keyError) :=
  claim_C7_required_configuration (fun _ => none) ⟨2025, 10⟩
    (NetResult.resp 200 dirExample) (fun _ => NetResult.netFail) [] [sampleRow] rfl

/-! ### Claim C2: run atomicity -/

/-- C2 (run atomicity): the run's writes all happen in the pending view
of one transaction.  If the run ends in any error, the committed table
is exactly the initial one — including for teams processed earlier in
the same run.  If the run succeeds, the committed table is exactly the
pending view produced by processing every team in the directory, i.e.
the single commit happens once, after the whole loop. -/
theorem claim_C2_run_atomicity (env : String → Option String) (today : PyDate)
    (dirRes : NetResult (List Obj)) (statsOf : String → NetResult Obj)
    (refTable : List NhlTeam) (db0 : List DbRow) :
    (∀ e, (mainRun env today dirRes statsOf refTable db0).2 = Except.error e →
        (mainRun env today dirRes statsOf refTable db0).1 = db0)
    ∧ (∀ n, (mainRun env today dirRes statsOf refTable db0).2 = Except.ok n →
        ∃ teams conn clk,
          fetch_active_teams dirRes = Except.ok teams
          ∧ teamLoop statsOf refTable (seasonOf (env "NHL_SEASON") today) teams
              { committed := db0, pending := db0 } 0 0
            = (conn, Except.ok (n, clk))
          ∧ (mainRun env today dirRes statsOf refTable db0).1 = conn.pending) := by
  cases henv : env dbUrlKey with
  | none =>
    constructor
    · intro e _
      simp only [mainRun, henv]
    · intro n hn
      simp only [mainRun, henv] at hn
      exact Except.noConfusion hn
  | some u =>
    cases hdir : fetch_active_teams dirRes with
    | error e2 =>
      constructor
      · intro e _
        simp only [mainRun, henv, hdir]
      · intro n hn
        simp only [mainRun, henv, hdir] at hn
        exact Except.noConfusion hn
    | ok teams =>
      rcases hloop : teamLoop statsOf refTable (seasonOf (env "NHL_SEASON") today)
          teams { committed := db0, pending := db0 } 0 0 with ⟨conn, res⟩
      cases res with
      | error e2 =>
        constructor
        · intro e _
          simp only [mainRun, henv, hdir, hloop]
          have hc := teamLoop_committed statsOf refTable
            (seasonOf (env "NHL_SEASON") today) teams
            { committed := db0, pending := db0 } 0 0
          rw [hloop] at hc
          exact hc
        · intro n hn
          simp only [mainRun, henv, hdir, hloop] at hn
          exact Except.noConfusion hn
      | ok pr =>
        rcases pr with ⟨ups, clk⟩
        constructor
        · intro e he
          simp only [mainRun, henv, hdir, hloop] at he
          exact Except.noConfusion he
        · intro n hn
          simp only [mainRun, henv, hdir, hloop] at hn
          injection hn with hn
          refine ⟨teams, conn, clk, rfl, ?_, ?_⟩
          · rw [hloop, hn]
          · simp only [mainRun, henv, hdir, hloop]
            rfl

/-- Witness for C2: a run whose only team's stats fetch dies with a
network failure ends in the transport error and leaves the nonempty
initial table exactly as it was. -/
theorem claim_C2_run_atomicity_witness :
    (mainRun (fun _ => some "postgres://example") ⟨2025, 10⟩
        (NetResult.resp 200 [[("triCode", JVal.str "BOS"),
          ("fullName", JVal.str "Boston Bruins")]])
        (fun _ => NetResult.netFail) [] [sampleRow]).1
      = [sampleRow] :=
  (claim_C2_run_atomicity (fun _ => some "postgres://example") ⟨2025, 10⟩
    (NetResult.resp 200 [[("triCode", JVal.str "BOS"),
      ("fullName", JVal.str "Boston Bruins")]])
    (fun _ => NetResult.netFail) [] [sampleRow]).1
    RunErr.transportError (by decide)

/-! ### Claim C8: directory normalization -/

theorem parseTeams_ok : ∀ data : List Obj,
    (∀ t ∈ data, pyTruthy (Obj.get t "triCode") = true →
        JVal.isStr (Obj.get t "triCode") = true) →
    parseTeams data = Except.ok (specDirectoryTeams data) := by
  intro data
  induction data with
  | nil => intro _; rfl
  | cons t rest ih =>
    intro h
    have hrest := ih (fun x hx => h x (List.mem_cons_of_mem t hx))
    by_cases hc : (pyTruthy (Obj.get t "triCode") && pyTruthy (dirName t)) = true
    · have htri : pyTruthy (Obj.get t "triCode") = true :=
        (Bool.and_eq_true _ _ ▸ hc).1
      have hstr := h t (List.mem_cons_self _ _) htri
      cases hv : Obj.get t "triCode" with
      | str s =>
        have h1 : pyTruthy (JVal.str s) = true := hv ▸ htri
        have h2 : pyTruthy (dirName t) = true := (Bool.and_eq_true _ _ ▸ hc).2
        simp [parseTeams, hc, hv, hrest, specDirectoryTeams, List.filter_cons, h1, h2]
      | null => rw [hv] at hstr; exact absurd hstr (by decide)
      | num q => rw [hv] at hstr; exact absurd hstr (by simp [JVal.isStr])
      | bool b => rw [hv] at hstr; exact absurd hstr (by simp [JVal.isStr])
    · have hc' : (pyTruthy (Obj.get t "triCode") && pyTruthy (dirName t)) = false :=
        Bool.eq_false_iff.mpr hc
      simp [parseTeams, hc', hrest, specDirectoryTeams, List.filter_cons]

/-- C8 (directory normalization): on a successful directory response
whose truthy codes are strings, the fetcher returns exactly the entries
having both a short code and a display name — the name taken from
`fullName`, then `name`, then `teamName`, in priority order — each as a
lowercased code paired with the name, in source order; entries missing
the code or all name fields are silently skipped. -/
theorem claim_C8_directory_normalization (status : Nat) (data : List Obj)
    (hst : status < 400)
    (hcodes : ∀ t ∈ data, pyTruthy (Obj.get t "triCode") = true →
        JVal.isStr (Obj.get t "triCode") = true) :
    fetch_active_teams (NetResult.resp status data)
      = Except.ok (specDirectoryTeams data) := by
  unfold fetch_active_teams
  simp only [nhl_get]
  rw [if_neg (by omega)]
  exact parseTeams_ok data hcodes

/-- Witness for C8: the 32-entry directory with one malformed entry
(code present, all three name fields absent) yields exactly 31 teams. -/
theorem claim_C8_directory_normalization_witness :
    dirExample.length = 32
    ∧ fetch_active_teams (NetResult.resp 200 dirExample)
        = Except.ok (specDirectoryTeams dirExample)
    ∧ (specDirectoryTeams dirExample).length = 31 :=
  ⟨by decide,
    claim_C8_directory_normalization 200 dirExample (by decide) (by decide),
    by decide⟩

end NhlDaily
